import Mathlib

/-!
# Verification of the fetu-optima-backend ranking / fan-out subsystem

Shallow embedding, in Lean 4, of the real-time leaderboard and websocket
fan-out code of the repository, together with theorems settling the frozen
claims about it.

Embedded source files:
* `app/core/cache.py` — the `CacheService` wrapper over redis
  (`set`, `get`, `delete`, `increment`, `add_to_sorted_set`,
  `get_sorted_set_range`).
* `app/api/v1/endpoints/puzzles.py` — `submit_attempt`, `get_puzzle_stats`,
  the module-local `update_leaderboard`.
* `app/api/v1/endpoints/leaderboard.py` — `get_global_leaderboard`,
  `update_leaderboard`, `get_user_leaderboard_data`.
* `app/websockets/server.py` — `ConnectionManager`
  (`connect`, `disconnect`, `send_personal_message`, `broadcast`).

Conventions of the embedding:
* Python `dict`s become association lists (`List (κ × ν)`); dictionary
  subscription that can raise `KeyError`, calls with a wrong number of
  positional arguments (`TypeError`) and accesses to attributes a class does
  not define (`AttributeError`) are modelled in the `Except PyErr` monad.
* Python `set`s become duplicate-free lists; `set.add` appends when absent,
  `set.remove` raises `KeyError` when absent.
* Python floats are replaced by exact rationals `ℚ` (no claim here depends
  on rounding behaviour).
* Websocket handles and member ids are modelled as `Nat`; "delivering" a
  message is modelled by returning the list of websocket handles that
  receive it, in delivery order.
-/

namespace FetuOptima

/-- Python runtime errors that the embedded code can raise. -/
inductive PyErr where
  /-- wrong number of positional arguments in a call -/
  | typeError
  /-- attribute lookup failed on an object -/
  | attributeError
  /-- dict subscription or `set.remove` on a missing key/element -/
  | keyError
  /-- FastAPI `HTTPException(status_code=404)` -/
  | notFound
  /-- simulated failure of the durable commit (`db.commit()`) -/
  | commitError
deriving DecidableEq, Repr

/-- Equality of `Except` results is decidable (used to evaluate the
embedded fallible operations at concrete inputs). -/
instance {ε α : Type} [DecidableEq ε] [DecidableEq α] :
    DecidableEq (Except ε α) := fun x y =>
  match x, y with
  | .ok a, .ok b =>
    if h : a = b then isTrue (by rw [h]) else isFalse (by simp [h])
  | .error a, .error b =>
    if h : a = b then isTrue (by rw [h]) else isFalse (by simp [h])
  | .ok _, .error _ => isFalse (by simp)
  | .error _, .ok _ => isFalse (by simp)

/-! ## Association-list dictionaries (Python `dict`) -/

/-- First binding of key `k` in an association list, like `d[k]` guarded by
`k in d`. -/
def alistFind {κ ν : Type} [DecidableEq κ] (d : List (κ × ν)) (k : κ) :
    Option ν :=
  match d with
  | [] => none
  | (k', v) :: rest => if k' = k then some v else alistFind rest k

/-- `d[k] = v`: replace the first binding of `k`, or append a new binding. -/
def alistSet {κ ν : Type} [DecidableEq κ] (d : List (κ × ν)) (k : κ) (v : ν) :
    List (κ × ν) :=
  match d with
  | [] => [(k, v)]
  | (k', v') :: rest =>
    if k' = k then (k, v) :: rest else (k', v') :: alistSet rest k v

/-- `del d[k]`: drop the first binding of `k`. -/
def alistDel {κ ν : Type} [DecidableEq κ] (d : List (κ × ν)) (k : κ) :
    List (κ × ν) :=
  match d with
  | [] => []
  | (k', v') :: rest =>
    if k' = k then rest else (k', v') :: alistDel rest k

/-- `k in d`. -/
def alistHas {κ ν : Type} [DecidableEq κ] (d : List (κ × ν)) (k : κ) : Bool :=
  (alistFind d k).isSome

/-- `d[k]`: subscription, raising `KeyError` on a missing key. -/
def alistGet {κ ν : Type} [DecidableEq κ] (d : List (κ × ν)) (k : κ) :
    Except PyErr ν :=
  match alistFind d k with
  | some v => .ok v
  | none => .error .keyError

/-- `set.add x`: append when absent (Python sets hold no duplicates). -/
def pySetAdd {α : Type} [DecidableEq α] (s : List α) (x : α) : List α :=
  if x ∈ s then s else s ++ [x]

/-! ## The user / leaderboard data model

`app/models/user.py` gives a `User` the columns used by the leaderboard
endpoints: `id`, `username`, `total_score`, `rating`, `puzzles_solved`,
`win_streak`. -/

/-- A row of the `users` table, restricted to the columns the embedded
endpoints read. -/
structure UserRec where
  id : Nat
  username : String
  total_score : Int
  rating : ℚ
  puzzles_solved : Nat
  win_streak : Nat
deriving DecidableEq, Repr

/-- One entry of the leaderboard payload built by
`get_global_leaderboard` (leaderboard.py lines 36–46). -/
structure LBEntry where
  user_id : Nat
  username : String
  total_score : Int
  rank : Nat
  rating : ℚ
  puzzles_solved : Nat
  win_streak : Nat
deriving DecidableEq, Repr

/-! ## Redis state and `CacheService` (app/core/cache.py) -/

/-- A value held at a plain redis key: the code stores counter strings
(`INCR` keys) and cached leaderboard pages. -/
inductive RVal where
  | vint (n : Int)
  | vstr (s : String)
  | vpage (entries : List LBEntry)
deriving DecidableEq, Repr

/-- The redis state reachable through `CacheService`: the plain keyspace and
the sorted sets (member → score). Expiry times are not modelled; no claim
below is about TTL. -/
structure RedisState where
  kv : List (String × RVal)
  zsets : List (String × List (String × Int))
deriving DecidableEq, Repr

/-- The empty redis state. -/
def RedisState.empty : RedisState := ⟨[], []⟩

namespace CacheService

/-- cache.py lines 23–25: `set(key, value, expire)` — `SET key value`. -/
def set (st : RedisState) (key : String) (value : RVal) : RedisState :=
  { st with kv := alistSet st.kv key value }

/-- cache.py lines 27–29: `get(key)` — `GET key`, `none` when absent. -/
def get (st : RedisState) (key : String) : Option RVal :=
  alistFind st.kv key

/-- cache.py lines 31–33: `delete(key)` — redis `DEL` of the literal key
name `key`; `DEL` performs no glob/pattern expansion. -/
def delete (st : RedisState) (key : String) : RedisState :=
  { st with kv := alistDel st.kv key }

/-- cache.py lines 35–37: `increment(key)` — redis `INCR key`: the integer
at `key` (0 when absent) plus one, returned and stored. The method takes
the key as its only argument; there is no amount parameter. -/
def increment (st : RedisState) (key : String) : RedisState × Int :=
  let old : Int :=
    match alistFind st.kv key with
    | some (.vint n) => n
    | _ => 0
  let new := old + 1
  ({ st with kv := alistSet st.kv key (.vint new) }, new)

/-- cache.py lines 39–41: `add_to_sorted_set(key, score, member)` —
`ZADD key {member: score}`: sets the member's score to `score`, replacing
any previous score of that member. -/
def add_to_sorted_set (st : RedisState) (key : String) (score : Int)
    (member : String) : RedisState :=
  let zs :=
    match alistFind st.zsets key with
    | some zs => zs
    | none => []
  { st with zsets := alistSet st.zsets key (alistSet zs member score) }

/-- The attribute names the class `CacheService` defines
(cache.py lines 19–45). -/
def attributes : List String :=
  ["redis", "set", "get", "delete", "increment", "add_to_sorted_set",
   "get_sorted_set_range"]

/-- Python attribute lookup on a `CacheService` instance: raises
`AttributeError` for any name the class does not define. -/
def getattr (name : String) : Except PyErr Unit :=
  if name ∈ attributes then .ok () else .error .attributeError

/-- A positional call `cache.increment(key, extra…)`. `increment` is
declared with the single parameter `key` (beyond `self`), so any extra
positional argument raises `TypeError` before the redis command runs. -/
def incrementCall (st : RedisState) (key : String) (extraArgs : List Int) :
    Except PyErr (RedisState × Int) :=
  match extraArgs with
  | [] => .ok (increment st key)
  | _ :: _ => .error .typeError

end CacheService

/-- The score `ZSCORE key member` would report, for reading states in
theorems. -/
def zscore (st : RedisState) (key member : String) : Option Int :=
  match alistFind st.zsets key with
  | some zs => alistFind zs member
  | none => none

/-! ## `update_leaderboard` (app/api/v1/endpoints/puzzles.py lines 188–192)

```python
async def update_leaderboard(user_id: int, points: int, redis: Redis):
    cache = CacheService(redis)
    await cache.increment(f"user_score:{user_id}", points)
    await cache.add_to_sorted_set("leaderboard", points, str(user_id))
```

The `increment` call passes `points` as a second positional argument, which
`CacheService.increment(self, key)` does not accept: Python raises
`TypeError` there and the function aborts before touching the store. -/

/-- Embedding of `update_leaderboard` from puzzles.py. Returns the redis
state after the call, or the Python error it raises. -/
def update_leaderboard_puzzles (st : RedisState) (user_id : Nat)
    (points : Int) : Except PyErr RedisState := do
  let (st, _) ← CacheService.incrementCall st (s!"user_score:{user_id}")
    [points]
  pure (CacheService.add_to_sorted_set st "leaderboard" points
    (toString user_id))

/-- The redis state an endpoint observes after scheduling
`update_leaderboard` as a background task: Starlette runs the task after
the response and logs (swallows) any exception it raises, so an erroring
task leaves the state unchanged. -/
def runBackgroundUpdate (st : RedisState) (user_id : Nat) (points : Int) :
    RedisState :=
  match update_leaderboard_puzzles st user_id points with
  | .ok st' => st'
  | .error _ => st

/-! ## `ConnectionManager` (app/websockets/server.py lines 7–38)

```python
class ConnectionManager:
    def __init__(self):
        self.active_connections: Dict[int, Set[WebSocket]] = {}
        self.user_channels: Dict[int, Set[str]] = {}
```

Websocket handles are `Nat`s; the two dicts are association lists. The
channel sets are stored **per member id**, not per connection. Delivery
functions return the list of websocket handles that receive the message,
in delivery order. -/

/-- The registry state of a `ConnectionManager` instance. -/
structure ConnectionManager where
  active_connections : List (Nat × List Nat)
  user_channels : List (Nat × List String)
deriving DecidableEq, Repr

namespace ConnectionManager

/-- A freshly constructed manager (`__init__`). -/
def empty : ConnectionManager := ⟨[], []⟩

/-- Python truthiness of the optional `channel` argument: `None` and the
empty string are falsy (`if channel:` / `if not channel`). -/
def truthyStr : Option String → Option String
  | some c => if c = "" then none else some c
  | none => none

/-- server.py lines 12–22: `connect(websocket, user_id, channel=None)`.
Initialises both dict entries for a new `user_id`, adds the websocket to
the member's connection set, and, when `channel` is truthy, adds it to the
member's (shared, per-identity) channel set. -/
def connect (m : ConnectionManager) (websocket user_id : Nat)
    (channel : Option String) : Except PyErr ConnectionManager := do
  let m :=
    if alistHas m.active_connections user_id then m
    else
      { active_connections := alistSet m.active_connections user_id [],
        user_channels := alistSet m.user_channels user_id [] }
  let conns ← alistGet m.active_connections user_id
  let m := { m with
    active_connections :=
      alistSet m.active_connections user_id (pySetAdd conns websocket) }
  match truthyStr channel with
  | none => pure m
  | some c => do
    let chans ← alistGet m.user_channels user_id
    pure { m with
      user_channels := alistSet m.user_channels user_id (pySetAdd chans c) }

/-- server.py lines 24–28: `disconnect(websocket, user_id)`. Removes the
websocket from the member's connection set (`set.remove`, `KeyError` when
absent) and drops both dict entries when the set becomes empty. -/
def disconnect (m : ConnectionManager) (websocket user_id : Nat) :
    Except PyErr ConnectionManager := do
  let conns ← alistGet m.active_connections user_id
  let conns ←
    if websocket ∈ conns then pure (conns.erase websocket)
    else Except.error PyErr.keyError
  let m := { m with
    active_connections := alistSet m.active_connections user_id conns }
  if conns.isEmpty then
    pure { active_connections := alistDel m.active_connections user_id,
           user_channels := alistDel m.user_channels user_id }
  else
    pure m

/-- server.py lines 30–33: the websockets `send_personal_message(message,
user_id)` delivers to — every connection of `user_id`, or none at all when
the member has no entry (the `if user_id in self.active_connections`
guard). -/
def send_personal_message (m : ConnectionManager) (user_id : Nat) :
    List Nat :=
  match alistFind m.active_connections user_id with
  | some conns => conns
  | none => []

/-- The condition of server.py line 37, `if not channel or channel in
channels`: a `None` or empty-string channel matches every member. -/
def channelMatches (channel : Option String) (chans : List String) : Bool :=
  match channel with
  | none => true
  | some c => c = "" || chans.contains c

/-- server.py lines 35–38: the websockets `broadcast(message, channel)`
delivers to. Iterates `user_channels` and sends the personal message to
each matching member. -/
def broadcast (m : ConnectionManager) (channel : Option String) :
    List Nat :=
  (m.user_channels.map fun p =>
    if channelMatches channel p.2 then send_personal_message m p.1
    else []).flatten

/-- The member ids currently holding connections (the key view of
`active_connections`). -/
def connectedMembers (m : ConnectionManager) : List Nat :=
  m.active_connections.map Prod.fst

end ConnectionManager

/-! ## Leaderboard endpoints (app/api/v1/endpoints/leaderboard.py) -/

/-- Python truthiness of the value `cache.get` returned (`if cached_data:`). -/
def rvalTruthy : RVal → Bool
  | .vint n => n ≠ 0
  | .vstr s => s ≠ ""
  | .vpage p => !p.isEmpty

/-- The page computation of `get_global_leaderboard` (lines 30–46): the
database rows ordered by `total_score DESC`, offset by `skip`, limited to
`limit`, ranked by `enumerate(users, start=skip + 1)`. `users` stands for
the full ordered result of the query before OFFSET/LIMIT. -/
def global_leaderboard_page (users : List UserRec) (skip limit : Nat) :
    List LBEntry :=
  ((users.drop skip).take limit).enum.map fun p =>
    { user_id := p.2.id
      username := p.2.username
      total_score := p.2.total_score
      rank := skip + 1 + p.1
      rating := p.2.rating
      puzzles_solved := p.2.puzzles_solved
      win_streak := p.2.win_streak }

/-- leaderboard.py lines 14–50: `get_global_leaderboard(skip, limit)` with
its read-through cache — serve a truthy cached value as-is, otherwise
compute the page, cache it for 300 s and return it. -/
def get_global_leaderboard (users : List UserRec) (st : RedisState)
    (skip limit : Nat) : RVal × RedisState :=
  let cache_key := s!"global_leaderboard:{skip}:{limit}"
  let recompute : RVal × RedisState :=
    let lb := global_leaderboard_page users skip limit
    (.vpage lb, CacheService.set st cache_key (.vpage lb))
  match CacheService.get st cache_key with
  | some v => if rvalTruthy v then (v, st) else recompute
  | none => recompute

/-- The dictionary `get_user_leaderboard_data` returns (lines 197–201). -/
structure UserLBData where
  user_id : Nat
  score : Int
  rank : Option Nat
deriving DecidableEq, Repr

/-- leaderboard.py lines 189–201: `get_user_leaderboard_data(user_id,
redis)`. Line 195 calls `cache.get_sorted_set_rank(...)`, an attribute
`CacheService` does not define, so Python raises `AttributeError` there;
the sentinel dictionary of lines 197–201 (`rank: None`, `score: 0` for an
unranked member) is dead code and the `rank` below is the value that dead
branch would produce for a member absent from the sorted set. -/
def get_user_leaderboard_data (st : RedisState) (user_id : Nat) :
    Except PyErr UserLBData := do
  let score := CacheService.get st (s!"user_score:{user_id}")
  let _ ← CacheService.getattr "get_sorted_set_rank"
  pure { user_id := user_id
         score :=
           match score with
           | some (.vint n) => n
           | _ => 0
         rank := none }

/-- leaderboard.py lines 169–172 in isolation: the cache-invalidation step
of `update_leaderboard`. `cache.delete` issues redis `DEL` on the literal
key names `"global_leaderboard:*"` and `"category_leaderboard:{c}:*"`;
`DEL` does not expand `*` as a pattern. -/
def invalidate_cached_leaderboards (st : RedisState)
    (category : Option String) : RedisState :=
  let st := CacheService.delete st "global_leaderboard:*"
  match ConnectionManager.truthyStr category with
  | some c => CacheService.delete st (s!"category_leaderboard:{c}:*")
  | none => st

/-- leaderboard.py lines 153–187: `update_leaderboard(user_id, points,
category, redis)` — increment the member's global (and category) score,
invalidate cached leaderboards, read back the member's data and broadcast
it on the `"leaderboard"` channel (and the category channel). `mgr` is the
module's own `ConnectionManager()` instance (line 12). Returns the redis
state together with the recipient lists of the broadcasts performed. The
`cache.increment` calls pass `points` as an extra positional argument,
which raises `TypeError` (cache.py declares `increment(self, key)`). -/
def update_leaderboard_lb (mgr : ConnectionManager) (st : RedisState)
    (user_id : Nat) (points : Int) (category : Option String) :
    Except PyErr (RedisState × List (List Nat)) := do
  let (st, _) ← CacheService.incrementCall st (s!"user_score:{user_id}")
    [points]
  let st ←
    match ConnectionManager.truthyStr category with
    | some c => do
      let (st', _) ← CacheService.incrementCall st
        (s!"user_category_score:{c}:{user_id}") [points]
      pure st'
    | none => pure st
  let st := invalidate_cached_leaderboards st category
  let _user_data ← get_user_leaderboard_data st user_id
  let sends := [mgr.broadcast (some "leaderboard")]
  let sends :=
    match ConnectionManager.truthyStr category with
    | some c => sends ++ [mgr.broadcast (some (s!"leaderboard_category_{c}"))]
    | none => sends
  pure (st, sends)

/-! ## Puzzle attempts (app/api/v1/endpoints/puzzles.py, app/services/ai_puzzle.py)

Solutions are JSON values; the embedded code only ever compares them for
equality or numerically, so a string/rational sum type suffices. Python
floats are replaced by exact rationals. -/

/-- A puzzle solution value (`solution_submitted`, `content["solution"]`). -/
inductive Solution where
  | str (s : String)
  | num (q : ℚ)
deriving DecidableEq, Repr

namespace PuzzleValidator

/-- ai_puzzle.py lines 94–99: the coding validator is a placeholder that
accepts every submission. -/
def validate_coding_solution (_submitted _correct : Solution) : Bool :=
  true

/-- ai_puzzle.py lines 101–104: `abs(submitted_answer - correct_answer) <
0.001`. Subtracting non-numbers raises `TypeError` in Python. -/
def validate_math_solution (submitted correct : Solution) :
    Except PyErr Bool :=
  match submitted, correct with
  | .num a, .num b => .ok (|a - b| < 1 / 1000)
  | _, _ => .error .typeError

/-- ai_puzzle.py lines 83–91: `validate_solution(puzzle_type,
submitted_solution, correct_solution)`. `PuzzleCategory` is a `str` enum,
so the category compares directly against `"coding"` / `"math"`; the
fallback is plain equality. -/
def validate_solution (puzzle_type : String) (submitted correct : Solution) :
    Except PyErr Bool :=
  if puzzle_type = "coding" then
    .ok (validate_coding_solution submitted correct)
  else if puzzle_type = "math" then
    validate_math_solution submitted correct
  else
    .ok (submitted == correct)

end PuzzleValidator

/-- A row of the `puzzle` table, restricted to the columns the embedded
endpoints read (`content` reduced to its `"solution"` entry). -/
structure PuzzleRec where
  id : Nat
  category : String
  points : Int
  times_solved : Nat
  success_rate : ℚ
  content_solution : Solution
deriving DecidableEq, Repr

/-- A row of the `puzzleattempt` table. -/
structure AttemptRec where
  user_id : Nat
  puzzle_id : Nat
  solution_submitted : Solution
  is_correct : Bool
  time_taken : Option ℚ
  points_earned : Int
deriving DecidableEq, Repr

/-- The committed database state the endpoints touch. -/
structure DbState where
  users : List UserRec
  puzzles : List PuzzleRec
  attempts : List AttemptRec
deriving DecidableEq, Repr

/-- Replace the user row with matching `id` (an ORM object mutation made
durable by `db.commit()`). -/
def DbState.saveUser (users : List UserRec) (u : UserRec) : List UserRec :=
  users.map fun v => if v.id == u.id then u else v

/-- Replace the puzzle row with matching `id`. -/
def DbState.savePuzzle (puzzles : List PuzzleRec) (p : PuzzleRec) :
    List PuzzleRec :=
  puzzles.map fun q => if q.id == p.id then p else q

/-- The body of a `POST /{puzzle_id}/attempt` request. -/
structure AttemptIn where
  solution_submitted : Solution
  time_taken : Option ℚ
deriving DecidableEq, Repr

/-- Everything `submit_attempt` leaves behind: the HTTP outcome, the
database and redis states, and the recipient lists of any websocket
broadcasts (puzzles.py's `update_leaderboard` performs none). -/
structure SubmitResult where
  response : Except PyErr AttemptRec
  db : DbState
  redis : RedisState
  broadcasts : List (List Nat)
deriving DecidableEq, Repr

/-- `true` when an `Except` carries an error (the caller saw a failure
response, not a 2xx). -/
def isFailure {α : Type} (r : Except PyErr α) : Bool :=
  match r with
  | .ok _ => false
  | .error _ => true

/-- puzzles.py lines 50–105: `submit_attempt(puzzle_id, attempt, ...)`.

`commitOk` injects the durable-commit outcome: when `false`, `db.commit()`
(line 103) raises, the session is rolled back (no pending mutation
persists), the endpoint returns a failure, and the background task
scheduled at lines 93–98 never runs (Starlette only runs background tasks
after a successful response). On success the response is sent and then the
background task `update_leaderboard` runs (it raises `TypeError`, which
the framework logs and swallows — see `runBackgroundUpdate`).

The `puzzle.attempts.count()` of line 90 is taken to include the attempt
added (and autoflushed) at line 80. -/
def submit_attempt (commitOk : Bool) (db : DbState) (st : RedisState)
    (current_user_id puzzle_id : Nat) (attempt : AttemptIn) : SubmitResult :=
  let fail (e : PyErr) : SubmitResult := ⟨.error e, db, st, []⟩
  match db.puzzles.find? (fun p => p.id == puzzle_id) with
  | none => fail .notFound
  | some puzzle =>
    match PuzzleValidator.validate_solution puzzle.category
        attempt.solution_submitted puzzle.content_solution with
    | .error e => fail e
    | .ok is_correct =>
      match db.users.find? (fun u => u.id == current_user_id) with
      | none => fail .keyError
      | some user =>
        let puzzle_attempt : AttemptRec :=
          { user_id := current_user_id
            puzzle_id := puzzle_id
            solution_submitted := attempt.solution_submitted
            is_correct := is_correct
            time_taken := attempt.time_taken
            points_earned := if is_correct then puzzle.points else 0 }
        let user' :=
          if is_correct then
            { user with
              total_score := user.total_score + puzzle.points
              puzzles_solved := user.puzzles_solved + 1
              win_streak := user.win_streak + 1 }
          else { user with win_streak := 0 }
        let attemptsCount :=
          (db.attempts.filter (fun a => a.puzzle_id == puzzle_id)).length + 1
        let puzzle' :=
          if is_correct then
            { puzzle with
              times_solved := puzzle.times_solved + 1
              success_rate :=
                ((puzzle.times_solved + 1 : ℚ) / (attemptsCount + 1)) * 100 }
          else puzzle
        if commitOk then
          let db' : DbState :=
            { users := DbState.saveUser db.users user'
              puzzles := DbState.savePuzzle db.puzzles puzzle'
              attempts := db.attempts ++ [puzzle_attempt] }
          let st' :=
            if is_correct then runBackgroundUpdate st current_user_id
              puzzle.points
            else st
          ⟨.ok puzzle_attempt, db', st', []⟩
        else fail .commitError

/-! ## `get_puzzle_stats` (puzzles.py lines 140–176) and its cache race -/

/-- The stats payload built at lines 165–171. -/
structure PuzzleStats where
  total_attempts : Nat
  success_rate : ℚ
  average_time : ℚ
  fastest_solve : Option ℚ
  total_points_awarded : Int
deriving DecidableEq, Repr

/-- puzzles.py lines 153–171: the database recomputation of the stats
payload for `puzzle_id` (404 when the puzzle is unknown). The generator
condition `if a.time_taken` drops both `None` and `0.0`; the average
divides by `total_attempts`, the count of *all* attempts. -/
def computePuzzleStats (db : DbState) (puzzle_id : Nat) :
    Except PyErr PuzzleStats :=
  match db.puzzles.find? (fun p => p.id == puzzle_id) with
  | none => .error .notFound
  | some puzzle =>
    let attempts := db.attempts.filter (fun a => a.puzzle_id == puzzle_id)
    let total_attempts := attempts.length
    let times := (attempts.filterMap AttemptRec.time_taken).filter
      (fun t => !(t == 0))
    let sumTimes : ℚ := times.foldl (· + ·) 0
    let average_time : ℚ :=
      if total_attempts > 0 then sumTimes / total_attempts else 0
    .ok { total_attempts := total_attempts
          success_rate := puzzle.success_rate
          average_time := average_time
          fastest_solve := times.min?
          total_points_awarded :=
            (attempts.map AttemptRec.points_earned).foldl (· + ·) 0 }

/-- Where one `get_puzzle_stats` request stands between its suspension
points: before the `await cache.get` (line 150), between the miss and the
`await cache.set` (the database read and payload construction run
synchronously there), or finished. -/
inductive CallerPhase where
  | start
  | computing
  | done (result : Except PyErr PuzzleStats)
deriving DecidableEq, Repr

/-- `true` exactly for finished callers. -/
def CallerPhase.isDone : CallerPhase → Bool
  | .done _ => true
  | _ => false

/-- The shared state of several concurrent `get_puzzle_stats` requests for
one `puzzle_id`: the content of the redis key `puzzle_stats:{puzzle_id}`,
each caller's phase, and how many times the database recomputation ran. -/
structure StatsRace where
  cache : Option PuzzleStats
  callers : List CallerPhase
  computeCount : Nat
deriving DecidableEq, Repr

/-- Run caller `i` up to its next suspension point (the event-loop step).
A caller at `start` reads the cache: a hit finishes it, a miss sends it to
`computing`. A caller at `computing` queries the database, stores the
payload under the key and finishes — this is the recomputation the claim
counts (on a 404 nothing is cached and the request fails). -/
def stepCaller (db : DbState) (puzzle_id : Nat) (s : StatsRace) (i : Nat) :
    StatsRace :=
  match s.callers.get? i with
  | none => s
  | some .start =>
    match s.cache with
    | some v => { s with callers := s.callers.set i (.done (.ok v)) }
    | none => { s with callers := s.callers.set i .computing }
  | some .computing =>
    match computePuzzleStats db puzzle_id with
    | .ok v =>
      { cache := some v
        callers := s.callers.set i (.done (.ok v))
        computeCount := s.computeCount + 1 }
    | .error e =>
      { s with
        callers := s.callers.set i (.done (.error e))
        computeCount := s.computeCount + 1 }
  | some (.done _) => s

/-- Interleave the callers according to `sched` (a list of caller
indices). -/
def runRace (db : DbState) (puzzle_id : Nat) (s : StatsRace)
    (sched : List Nat) : StatsRace :=
  sched.foldl (stepCaller db puzzle_id) s

/-- `n` concurrent requests that all find the key absent (the
simultaneous-miss scenario of the claim). -/
def initRace (n : Nat) : StatsRace :=
  ⟨none, List.replicate n .start, 0⟩

/-! ## Registry invariants and predicates used by the claims -/

/-- The key sets of the two registry dicts coincide (same key list), and
every member present in `active_connections` holds at least one
connection. -/
def ConnectionManager.RegistryInv (m : ConnectionManager) : Prop :=
  m.active_connections.map Prod.fst = m.user_channels.map Prod.fst
  ∧ ∀ p ∈ m.active_connections, p.2 ≠ []

instance (m : ConnectionManager) : Decidable m.RegistryInv := by
  unfold ConnectionManager.RegistryInv; infer_instance

/-- Every registered occurrence of the websocket `ws` belongs to member
`uid` (each client websocket is registered by exactly one `connect`
call). -/
def ConnectionManager.Owns (m : ConnectionManager) (uid ws : Nat) : Prop :=
  ∀ p ∈ m.active_connections, ws ∈ p.2 → p.1 = uid

instance (m : ConnectionManager) (uid ws : Nat) : Decidable (m.Owns uid ws) := by
  unfold ConnectionManager.Owns; infer_instance

/-- Connection sets hold no duplicates (they embed Python `set`s). -/
def ConnectionManager.SetsNodup (m : ConnectionManager) : Prop :=
  ∀ p ∈ m.active_connections, p.2.Nodup

instance (m : ConnectionManager) : Decidable m.SetsNodup := by
  unfold ConnectionManager.SetsNodup; infer_instance

/-- The rank formula of the claims: the number of rows whose score is
strictly greater than `s`. -/
def countStrictlyGreater (users : List UserRec) (s : Int) : Nat :=
  (users.filter (fun u => decide (s < u.total_score))).length

/-- The `ORDER BY total_score DESC` contract on the rows `users` of the
global leaderboard query. -/
def ScoresSortedDesc (users : List UserRec) : Prop :=
  users.Pairwise (fun a b => b.total_score ≤ a.total_score)

/-- Strictly descending scores: sorted and free of ties. -/
def ScoresStrictDesc (users : List UserRec) : Prop :=
  users.Pairwise (fun a b => b.total_score < a.total_score)

instance (users : List UserRec) : Decidable (ScoresStrictDesc users) := by
  unfold ScoresStrictDesc; infer_instance

/-- The invariant of the `get_puzzle_stats` cache race: the key holds
nothing or the (unique, deterministic) recomputed payload, every finished
caller got that payload, and the recomputations performed so far plus the
callers still pending never exceed the number of callers. -/
def RaceOk (v : PuzzleStats) (n : Nat) (s : StatsRace) : Prop :=
  (s.cache = none ∨ s.cache = some v)
  ∧ s.callers.length = n
  ∧ (∀ c ∈ s.callers, ∀ r, c = .done r → r = .ok v)
  ∧ s.computeCount
      + (s.callers.filter (fun c => !(CallerPhase.isDone c))).length ≤ n

/-! ## Lemmas about the dictionary embedding -/

theorem alistFind_mem {κ ν : Type} [DecidableEq κ] {d : List (κ × ν)}
    {k : κ} {v : ν} (h : alistFind d k = some v) : (k, v) ∈ d := by
  induction d with
  | nil => simp [alistFind] at h
  | cons p rest ih =>
    rw [alistFind] at h
    by_cases hk : p.1 = k
    · obtain ⟨k', v'⟩ := p
      simp_all
    · obtain ⟨k', v'⟩ := p
      simp only [hk, if_neg] at h
      exact List.mem_cons_of_mem _ (ih (by simpa using h))

theorem alistSet_entries {κ ν : Type} [DecidableEq κ] {d : List (κ × ν)}
    {k : κ} {v : ν} {p : κ × ν} (h : p ∈ alistSet d k v) :
    p = (k, v) ∨ p ∈ d := by
  induction d with
  | nil => simp [alistSet] at h; simp [h]
  | cons q rest ih =>
    rw [alistSet] at h
    by_cases hk : q.1 = k
    · rw [if_pos hk] at h
      rcases List.mem_cons.mp h with h' | h'
      · exact Or.inl h'
      · exact Or.inr (List.mem_cons_of_mem _ h')
    · rw [if_neg hk] at h
      rcases List.mem_cons.mp h with h' | h'
      · exact Or.inr (by simp [h'])
      · rcases ih h' with h'' | h''
        · exact Or.inl h''
        · exact Or.inr (List.mem_cons_of_mem _ h'')

theorem alistDel_subset {κ ν : Type} [DecidableEq κ] {d : List (κ × ν)}
    {k : κ} {p : κ × ν} (h : p ∈ alistDel d k) : p ∈ d := by
  induction d with
  | nil => simp [alistDel] at h
  | cons q rest ih =>
    rw [alistDel] at h
    by_cases hk : q.1 = k
    · exact List.mem_cons_of_mem _ (by simpa [hk] using h)
    · rcases List.mem_cons.mp (by simpa [hk] using h) with h' | h'
      · simp [h']
      · exact List.mem_cons_of_mem _ (ih h')

theorem alistHas_iff_mem_keys {κ ν : Type} [DecidableEq κ]
    {d : List (κ × ν)} {k : κ} :
    alistHas d k = true ↔ k ∈ d.map Prod.fst := by
  induction d with
  | nil => simp [alistHas, alistFind]
  | cons q rest ih =>
    simp only [alistHas, alistFind, List.map_cons, List.mem_cons] at ih ⊢
    by_cases hk : q.1 = k
    · simp [hk]
    · rw [if_neg hk, ih]
      constructor
      · exact Or.inr
      · rintro (h | h)
        · exact absurd h.symm hk
        · exact h

theorem alistSet_keys_of_has {κ ν : Type} [DecidableEq κ]
    {d : List (κ × ν)} {k : κ} (v : ν) (h : alistHas d k = true) :
    (alistSet d k v).map Prod.fst = d.map Prod.fst := by
  induction d with
  | nil => simp [alistHas, alistFind] at h
  | cons q rest ih =>
    rw [alistSet]
    by_cases hk : q.1 = k
    · rw [if_pos hk]
      simp [hk]
    · rw [if_neg hk]
      rw [alistHas, alistFind, if_neg hk] at h
      simp only [List.map_cons]
      rw [ih (by simpa [alistHas] using h)]

theorem alistSet_keys_of_not_has {κ ν : Type} [DecidableEq κ]
    {d : List (κ × ν)} {k : κ} (v : ν) (h : alistHas d k = false) :
    (alistSet d k v).map Prod.fst = d.map Prod.fst ++ [k] := by
  induction d with
  | nil => simp [alistSet]
  | cons q rest ih =>
    rw [alistHas, alistFind] at h
    by_cases hk : q.1 = k
    · rw [if_pos hk] at h
      simp at h
    · rw [if_neg hk] at h
      rw [alistSet, if_neg hk]
      simp only [List.map_cons, List.cons_append]
      rw [ih (by simpa [alistHas] using h)]

theorem alistDel_keys {κ ν : Type} [DecidableEq κ] (d : List (κ × ν))
    (k : κ) : (alistDel d k).map Prod.fst = (d.map Prod.fst).erase k := by
  induction d with
  | nil => simp [alistDel]
  | cons q rest ih =>
    rw [alistDel]
    by_cases hk : q.1 = k
    · rw [if_pos hk]
      simp [hk, List.erase_cons]
    · rw [if_neg hk]
      simp [List.erase_cons, hk, ih]

theorem alistDel_alistSet {κ ν : Type} [DecidableEq κ] (d : List (κ × ν))
    (k : κ) (v : ν) : alistDel (alistSet d k v) k = alistDel d k := by
  induction d with
  | nil => simp [alistSet, alistDel]
  | cons q rest ih =>
    rw [alistSet]
    by_cases hk : q.1 = k
    · rw [if_pos hk]
      rw [alistDel, alistDel]
      simp [hk]
    · rw [if_neg hk]
      rw [alistDel, alistDel, if_neg hk, if_neg hk, ih]

theorem alistFind_alistSet_self {κ ν : Type} [DecidableEq κ]
    (d : List (κ × ν)) (k : κ) (v : ν) :
    alistFind (alistSet d k v) k = some v := by
  induction d with
  | nil => simp [alistSet, alistFind]
  | cons q rest ih =>
    rw [alistSet]
    by_cases hk : q.1 = k
    · rw [if_pos hk, alistFind]
      simp
    · rw [if_neg hk, alistFind, if_neg hk]
      exact ih

theorem alistFind_eq_none_of_not_mem_keys {κ ν : Type} [DecidableEq κ]
    {d : List (κ × ν)} {k : κ} (h : k ∉ d.map Prod.fst) :
    alistFind d k = none := by
  induction d with
  | nil => rfl
  | cons q rest ih =>
    rw [alistFind]
    simp only [List.map_cons, List.mem_cons] at h
    push_neg at h
    rw [if_neg fun hh => h.1 hh.symm, ih h.2]

theorem alistSet_entries_of_keys_nodup {κ ν : Type} [DecidableEq κ]
    {d : List (κ × ν)} {k : κ} {v : ν} {p : κ × ν}
    (hnd : (d.map Prod.fst).Nodup) (h : p ∈ alistSet d k v) :
    p = (k, v) ∨ (p ∈ d ∧ p.1 ≠ k) := by
  induction d with
  | nil => simp [alistSet] at h; simp [h]
  | cons q rest ih =>
    simp only [List.map_cons, List.nodup_cons] at hnd
    rw [alistSet] at h
    by_cases hk : q.1 = k
    · rcases List.mem_cons.mp (by simpa [hk] using h) with h' | h'
      · exact Or.inl h'
      · refine Or.inr ⟨List.mem_cons_of_mem _ h', ?_⟩
        intro hpk
        exact hnd.1 (hk ▸ hpk ▸ List.mem_map_of_mem Prod.fst h')
    · rcases List.mem_cons.mp (by simpa [hk] using h) with h' | h'
      · exact Or.inr ⟨by simp [h'], by simp [h', hk]⟩
      · rcases ih hnd.2 h' with h'' | h''
        · exact Or.inl h''
        · exact Or.inr ⟨List.mem_cons_of_mem _ h''.1, h''.2⟩

theorem pySetAdd_ne_nil {α : Type} [DecidableEq α] (s : List α) (x : α) :
    pySetAdd s x ≠ [] := by
  rw [pySetAdd]
  by_cases hx : x ∈ s
  · rw [if_pos hx]
    rintro rfl
    simp at hx
  · rw [if_neg hx]
    simp

/-! ## Lemmas about broadcast delivery -/

theorem mem_broadcast_iff (m : ConnectionManager) (ch : Option String)
    (w : Nat) :
    w ∈ m.broadcast ch
      ↔ ∃ p ∈ m.user_channels, ConnectionManager.channelMatches ch p.2 = true
          ∧ w ∈ m.send_personal_message p.1 := by
  rw [ConnectionManager.broadcast]
  rw [List.mem_flatten]
  constructor
  · rintro ⟨l, hl, hw⟩
    rcases List.mem_map.mp hl with ⟨p, hp, rfl⟩
    by_cases hc : ConnectionManager.channelMatches ch p.2 = true
    · exact ⟨p, hp, hc, by simpa [hc] using hw⟩
    · simp [hc] at hw
  · rintro ⟨p, hp, hc, hw⟩
    exact ⟨m.send_personal_message p.1, List.mem_map.mpr ⟨p, hp, by simp [hc]⟩,
      hw⟩

theorem mem_send_personal_iff (m : ConnectionManager) (uid w : Nat) :
    w ∈ m.send_personal_message uid
      ↔ ∃ conns, alistFind m.active_connections uid = some conns
          ∧ w ∈ conns := by
  rw [ConnectionManager.send_personal_message]
  cases h : alistFind m.active_connections uid <;> simp [h]

theorem not_mem_broadcast_of_not_in_connections (m : ConnectionManager)
    (w : Nat) (h : ∀ p ∈ m.active_connections, w ∉ p.2)
    (ch : Option String) : w ∉ m.broadcast ch := by
  intro hw
  rcases (mem_broadcast_iff m ch w).mp hw with ⟨p, _, _, hsend⟩
  rcases (mem_send_personal_iff m p.1 w).mp hsend with ⟨conns, hfind, hwc⟩
  exact h _ (alistFind_mem hfind) hwc


theorem not_mem_erase_self_of_nodup {α : Type} [DecidableEq α] {l : List α}
    (h : l.Nodup) (a : α) : a ∉ l.erase a := by
  induction l with
  | nil => simp
  | cons b rest ih =>
    rw [List.erase_cons]
    simp only [beq_iff_eq]
    rcases List.nodup_cons.mp h with ⟨hb, hrest⟩
    by_cases hba : b = a
    · rw [if_pos hba]
      exact fun ha => hb (hba ▸ ha)
    · rw [if_neg hba]
      intro ha
      rcases List.mem_cons.mp ha with ha' | ha'
      · exact hba ha'.symm
      · exact ih hrest ha'

theorem alistDel_entries_of_keys_nodup {κ ν : Type} [DecidableEq κ]
    {d : List (κ × ν)} {k : κ} {p : κ × ν}
    (hnd : (d.map Prod.fst).Nodup) (h : p ∈ alistDel d k) :
    p ∈ d ∧ p.1 ≠ k := by
  induction d with
  | nil => simp [alistDel] at h
  | cons q rest ih =>
    simp only [List.map_cons, List.nodup_cons] at hnd
    rw [alistDel] at h
    by_cases hk : q.1 = k
    · rw [if_pos hk] at h
      refine ⟨List.mem_cons_of_mem _ h, ?_⟩
      intro hpk
      exact hnd.1 (hk ▸ hpk ▸ List.mem_map_of_mem Prod.fst h)
    · rw [if_neg hk] at h
      rcases List.mem_cons.mp h with h' | h'
      · exact ⟨by simp [h'], by simp [h', hk]⟩
      · obtain ⟨h1, h2⟩ := ih hnd.2 h'
        exact ⟨List.mem_cons_of_mem _ h1, h2⟩

theorem alistSet_alistSet {κ ν : Type} [DecidableEq κ] (d : List (κ × ν))
    (k : κ) (v w : ν) : alistSet (alistSet d k v) k w = alistSet d k w := by
  induction d with
  | nil => simp [alistSet]
  | cons q rest ih =>
    rw [alistSet]
    by_cases hk : q.1 = k
    · rw [if_pos hk]
      rw [alistSet, alistSet, if_pos rfl, if_pos hk]
    · rw [if_neg hk]
      rw [alistSet, alistSet, if_neg hk, if_neg hk, ih]

/-! ## Lemmas about the connection registry -/

theorem disconnect_result (m m' : ConnectionManager) (ws uid : Nat)
    (hdis : m.disconnect ws uid = .ok m') :
    ∃ conns, alistFind m.active_connections uid = some conns ∧ ws ∈ conns ∧
      ((conns.erase ws ≠ [] ∧
        m' = { m with active_connections :=
                 alistSet m.active_connections uid (conns.erase ws) }) ∨
       (conns.erase ws = [] ∧
        m' = ⟨alistDel m.active_connections uid,
              alistDel m.user_channels uid⟩)) := by
  rw [ConnectionManager.disconnect] at hdis
  cases h1 : alistFind m.active_connections uid with
  | none =>
    simp [alistGet, h1, Except.bind, Bind.bind] at hdis
  | some conns =>
    by_cases hmem : ws ∈ conns
    · by_cases hemp : (conns.erase ws).isEmpty
      · refine ⟨conns, rfl, hmem, Or.inr ⟨List.isEmpty_iff.mp hemp, ?_⟩⟩
        simp [alistGet, h1, hmem, hemp, Except.bind, Bind.bind, Pure.pure,
          Except.pure] at hdis
        rw [← hdis]
        simp [alistDel_alistSet]
      · refine ⟨conns, rfl, hmem, Or.inl ⟨fun hn => by simp [hn] at hemp, ?_⟩⟩
        simp [alistGet, h1, hmem, hemp, Except.bind, Bind.bind, Pure.pure,
          Except.pure] at hdis
        rw [← hdis]
    · simp [alistGet, h1, hmem, Except.bind, Bind.bind] at hdis

theorem disconnect_preserves_inv (m m' : ConnectionManager) (ws uid : Nat)
    (hinv : m.RegistryInv) (hdis : m.disconnect ws uid = .ok m') :
    m'.RegistryInv := by
  obtain ⟨hkeys, hne⟩ := hinv
  rcases disconnect_result m m' ws uid hdis with ⟨conns, hfind, _, hcase⟩
  have hhas : alistHas m.active_connections uid = true := by
    simp [alistHas, hfind]
  rcases hcase with ⟨hner, rfl⟩ | ⟨_, rfl⟩
  · constructor
    · show (alistSet m.active_connections uid (conns.erase ws)).map Prod.fst
        = m.user_channels.map Prod.fst
      rw [alistSet_keys_of_has _ hhas, hkeys]
    · intro p hp
      rcases alistSet_entries hp with rfl | hp'
      · exact hner
      · exact hne p hp'
  · constructor
    · show (alistDel m.active_connections uid).map Prod.fst
        = (alistDel m.user_channels uid).map Prod.fst
      rw [alistDel_keys, alistDel_keys, hkeys]
    · intro p hp
      exact hne p (alistDel_subset hp)

theorem connect_preserves_inv (m m' : ConnectionManager) (ws uid : Nat)
    (ch : Option String) (hinv : m.RegistryInv)
    (hcon : m.connect ws uid ch = .ok m') : m'.RegistryInv := by
  obtain ⟨hkeys, hne⟩ := hinv
  rw [ConnectionManager.connect] at hcon
  by_cases hhas : alistHas m.active_connections uid
  · obtain ⟨conns, hfind⟩ := Option.isSome_iff_exists.mp hhas
    rw [if_pos hhas] at hcon
    have hhasc : alistHas m.user_channels uid = true := by
      rw [alistHas_iff_mem_keys] at hhas ⊢
      exact hkeys ▸ hhas
    obtain ⟨chans, hfindc⟩ := Option.isSome_iff_exists.mp hhasc
    cases hch : ConnectionManager.truthyStr ch with
    | none =>
      simp [alistGet, hfind, hch, Except.bind, Bind.bind, Pure.pure,
        Except.pure] at hcon
      rw [← hcon]
      constructor
      · show (alistSet m.active_connections uid (pySetAdd conns ws)).map
          Prod.fst = m.user_channels.map Prod.fst
        rw [alistSet_keys_of_has _ hhas, hkeys]
      · intro p hp
        rcases alistSet_entries hp with rfl | hp'
        · exact pySetAdd_ne_nil conns ws
        · exact hne p hp'
    | some c =>
      simp [alistGet, hfind, hfindc, hch, Except.bind, Bind.bind, Pure.pure,
        Except.pure] at hcon
      rw [← hcon]
      constructor
      · show (alistSet m.active_connections uid (pySetAdd conns ws)).map
          Prod.fst
          = (alistSet m.user_channels uid (pySetAdd chans c)).map Prod.fst
        rw [alistSet_keys_of_has _ hhas, alistSet_keys_of_has _ hhasc, hkeys]
      · intro p hp
        rcases alistSet_entries hp with rfl | hp'
        · exact pySetAdd_ne_nil conns ws
        · exact hne p hp'
  · rw [if_neg hhas] at hcon
    have hhasc : alistHas m.user_channels uid = false := by
      rw [Bool.eq_false_iff]
      intro hc
      have h1 : uid ∈ m.user_channels.map Prod.fst :=
        alistHas_iff_mem_keys.mp hc
      rw [← hkeys] at h1
      exact hhas (alistHas_iff_mem_keys.mpr h1)
    have hfind1 : alistFind (alistSet m.active_connections uid
        ([] : List Nat)) uid = some [] := alistFind_alistSet_self _ _ _
    cases hch : ConnectionManager.truthyStr ch with
    | none =>
      simp [alistGet, hfind1, hch, Except.bind, Bind.bind, Pure.pure,
        Except.pure] at hcon
      rw [← hcon]
      constructor
      · show (alistSet (alistSet m.active_connections uid []) uid
          (pySetAdd [] ws)).map Prod.fst
          = (alistSet m.user_channels uid []).map Prod.fst
        rw [alistSet_alistSet,
          alistSet_keys_of_not_has _ (Bool.not_eq_true _ ▸ hhas),
          alistSet_keys_of_not_has _ hhasc, hkeys]
      · intro p hp
        rw [alistSet_alistSet] at hp
        rcases alistSet_entries hp with rfl | hp'
        · exact pySetAdd_ne_nil [] ws
        · exact hne p hp'
    | some c =>
      have hfindc1 : alistFind (alistSet m.user_channels uid
          ([] : List String)) uid = some [] := alistFind_alistSet_self _ _ _
      simp [alistGet, hfind1, hfindc1, hch, Except.bind, Bind.bind,
        Pure.pure, Except.pure] at hcon
      rw [← hcon]
      constructor
      · show (alistSet (alistSet m.active_connections uid []) uid
          (pySetAdd [] ws)).map Prod.fst
          = (alistSet (alistSet m.user_channels uid []) uid
              (pySetAdd [] c)).map Prod.fst
        rw [alistSet_alistSet, alistSet_alistSet,
          alistSet_keys_of_not_has _ (Bool.not_eq_true _ ▸ hhas),
          alistSet_keys_of_not_has _ hhasc, hkeys]
      · intro p hp
        rw [alistSet_alistSet] at hp
        rcases alistSet_entries hp with rfl | hp'
        · exact pySetAdd_ne_nil [] ws
        · exact hne p hp'

/-! ## Lemmas about ranks and the per-user rank query -/

theorem get_user_leaderboard_data_raises (st : RedisState) (uid : Nat) :
    get_user_leaderboard_data st uid = .error .attributeError := by
  have h : CacheService.getattr "get_sorted_set_rank"
      = .error .attributeError := by decide
  simp [get_user_leaderboard_data, h, Except.bind, Bind.bind]

theorem countStrictlyGreater_of_strictDesc (users : List UserRec)
    (h : ScoresStrictDesc users) :
    ∀ (j : Nat) (hj : j < users.length),
      countStrictlyGreater users (users.get ⟨j, hj⟩).total_score = j := by
  induction users with
  | nil =>
    intro j hj
    simp at hj
  | cons u rest ih =>
    rw [ScoresStrictDesc, List.pairwise_cons] at h
    obtain ⟨hu, hrest⟩ := h
    intro j hj
    cases j with
    | zero =>
      show countStrictlyGreater (u :: rest) u.total_score = 0
      rw [countStrictlyGreater, List.filter_cons_of_neg]
      · rw [List.length_eq_zero, List.filter_eq_nil_iff]
        intro v hv
        simp only [decide_eq_true_eq]
        have := hu v hv
        omega
      · simp
    | succ j' =>
      have hj' : j' < rest.length := by
        simpa using hj
      show countStrictlyGreater (u :: rest)
        ((rest.get ⟨j', hj'⟩).total_score) = j' + 1
      rw [countStrictlyGreater, List.filter_cons_of_pos]
      · rw [List.length_cons]
        have hrec := ih hrest j' hj'
        rw [countStrictlyGreater] at hrec
        omega
      · simp only [decide_eq_true_eq]
        exact hu _ (List.get_mem rest j' hj')

theorem page_get (users : List UserRec) (skip limit i : Nat)
    (hi : i < (global_leaderboard_page users skip limit).length)
    (hisu : skip + i < users.length) :
    (global_leaderboard_page users skip limit).get ⟨i, hi⟩
      = { user_id := (users.get ⟨skip + i, hisu⟩).id
          username := (users.get ⟨skip + i, hisu⟩).username
          total_score := (users.get ⟨skip + i, hisu⟩).total_score
          rank := skip + 1 + i
          rating := (users.get ⟨skip + i, hisu⟩).rating
          puzzles_solved := (users.get ⟨skip + i, hisu⟩).puzzles_solved
          win_streak := (users.get ⟨skip + i, hisu⟩).win_streak } := by
  simp [global_leaderboard_page, List.get_eq_getElem, List.getElem_map,
    List.getElem_enum, List.getElem_take, List.getElem_drop]

/-! ## Lemmas about the stats-cache race -/

theorem filter_length_set {α : Type} (p : α → Bool) (l : List α)
    (i : Nat) (a b : α) (h : l.get? i = some a) :
    ((l.set i b).filter p).length + (if p a then 1 else 0)
      = (l.filter p).length + (if p b then 1 else 0) := by
  induction l generalizing i with
  | nil => simp at h
  | cons x xs ih =>
    cases i with
    | zero =>
      rw [List.get?] at h
      injection h with h
      subst h
      rw [List.set, List.filter_cons, List.filter_cons]
      by_cases hpx : p x <;> by_cases hpb : p b <;> simp [hpx, hpb]
    | succ i' =>
      rw [List.get?] at h
      rw [List.set, List.filter_cons, List.filter_cons]
      by_cases hpx : p x <;> simp [hpx] <;>
        have := ih i' h <;> omega

theorem stepCaller_preserves (db : DbState) (pid : Nat) (v : PuzzleStats)
    (n : Nat) (hv : computePuzzleStats db pid = .ok v) (s : StatsRace)
    (hs : RaceOk v n s) (i : Nat) : RaceOk v n (stepCaller db pid s i) := by
  obtain ⟨hc, hlen, hdone, hcount⟩ := hs
  cases hg : s.callers.get? i with
  | none =>
    have hstep : stepCaller db pid s i = s := by
      simp only [stepCaller]
      rw [hg]
    rw [hstep]
    exact ⟨hc, hlen, hdone, hcount⟩
  | some ph =>
    have hcnt := filter_length_set (fun c => !(CallerPhase.isDone c))
      s.callers i ph
    cases ph with
    | start =>
      cases hcache : s.cache with
      | none =>
        have hstep : stepCaller db pid s i
            = { s with callers := s.callers.set i .computing } := by
          simp only [stepCaller]
          rw [hg, hcache]
        rw [hstep]
        refine ⟨Or.inl hcache, by simp [hlen], ?_, ?_⟩
        · intro c hcm r hr
          rcases List.mem_or_eq_of_mem_set hcm with hcm' | rfl
          · exact hdone c hcm' r hr
          · simp at hr
        · have h1 := hcnt CallerPhase.computing hg
          simp [CallerPhase.isDone] at h1 hcount ⊢
          omega
      | some w =>
        have hwv : w = v := by
          rcases hc with h | h
          · rw [hcache] at h
            simp at h
          · rw [hcache] at h
            injection h
        subst hwv
        have hstep : stepCaller db pid s i
            = { s with callers := s.callers.set i (.done (.ok w)) } := by
          simp only [stepCaller]
          rw [hg, hcache]
        rw [hstep]
        refine ⟨Or.inr hcache, by simp [hlen], ?_, ?_⟩
        · intro c hcm r hr
          rcases List.mem_or_eq_of_mem_set hcm with hcm' | rfl
          · exact hdone c hcm' r hr
          · injection hr with hr
            exact hr.symm
        · have h1 := hcnt (CallerPhase.done (.ok w)) hg
          simp [CallerPhase.isDone] at h1 hcount ⊢
          omega
    | computing =>
      have hstep : stepCaller db pid s i
          = { cache := some v, callers := s.callers.set i (.done (.ok v)),
              computeCount := s.computeCount + 1 } := by
        simp only [stepCaller]
        rw [hg, hv]
      rw [hstep]
      refine ⟨Or.inr rfl, by simp [hlen], ?_, ?_⟩
      · intro c hcm r hr
        rcases List.mem_or_eq_of_mem_set hcm with hcm' | rfl
        · exact hdone c hcm' r hr
        · injection hr with hr
          exact hr.symm
      · have h1 := hcnt (CallerPhase.done (.ok v)) hg
        simp [CallerPhase.isDone] at h1 hcount ⊢
        omega
    | done r =>
      have hstep : stepCaller db pid s i = s := by
        simp only [stepCaller]
        rw [hg]
      rw [hstep]
      exact ⟨hc, hlen, hdone, hcount⟩

theorem runRace_preserves (db : DbState) (pid : Nat) (v : PuzzleStats)
    (n : Nat) (hv : computePuzzleStats db pid = .ok v) (s : StatsRace)
    (hs : RaceOk v n s) (sched : List Nat) :
    RaceOk v n (runRace db pid s sched) := by
  induction sched generalizing s with
  | nil => exact hs
  | cons j rest ih =>
    exact ih _ (stepCaller_preserves db pid v n hv s hs j)

theorem initRace_ok (v : PuzzleStats) (n : Nat) : RaceOk v n (initRace n) := by
  refine ⟨Or.inl rfl, by simp [initRace], ?_, ?_⟩
  · intro c hcm r hr
    rw [initRace] at hcm
    simp only at hcm
    rw [List.eq_of_mem_replicate hcm] at hr
    simp at hr
  · simp [initRace, List.filter_replicate, CallerPhase.isDone]

/-! ## The claims -/

/-- Claim C1: the spec says a member's recorded score after deltas d1..dn
equals their sum, never replaced by a single delta. The code violates
this: `update_leaderboard` (puzzles.py 188–192) raises `TypeError` because
`cache.increment(key, points)` passes an extra positional argument to the
one-parameter `CacheService.increment`; the same call breaks
`update_leaderboard` in leaderboard.py; and the `ZADD` issued by
`add_to_sorted_set` replaces the member's sorted-set score with the last
delta (100 then 250 leaves 250, not 350). -/
theorem C1_score_updates_lost :
    update_leaderboard_puzzles RedisState.empty 1 100 = .error .typeError
    ∧ update_leaderboard_lb ConnectionManager.empty RedisState.empty 1 100
        none = .error .typeError
    ∧ zscore (CacheService.add_to_sorted_set
        (CacheService.add_to_sorted_set RedisState.empty "leaderboard" 100
          "1") "leaderboard" 250 "1") "leaderboard" "1" = some 250
    ∧ (250 : Int) ≠ 100 + 250 := by decide

/-- Claim C2: when the durable commit (`db.commit()`, puzzles.py line 103)
fails, `submit_attempt` aborts with no partial effect — the database and
redis (ranking store and all caches) are unchanged, the caller receives a
failure, and no websocket event is published: the background
`update_leaderboard` task scheduled at lines 93–98 only runs after a
successful response. -/
theorem C2_commit_failure_aborts_cleanly (db : DbState) (st : RedisState)
    (uid pid : Nat) (att : AttemptIn) :
    (submit_attempt false db st uid pid att).redis = st
    ∧ (submit_attempt false db st uid pid att).db = db
    ∧ (submit_attempt false db st uid pid att).broadcasts = []
    ∧ isFailure (submit_attempt false db st uid pid att).response = true := by
  unfold submit_attempt
  repeat' split
  all_goals simp_all [isFailure]

/-- Claim C3 counterexample: with two members tied at score 100, the page
built by `get_global_leaderboard` reports rank 2 for the second member
while the claim's formula `count(strictly greater) + 1` gives 1; moreover
the per-member rank query `get_user_leaderboard_data` raises
`AttributeError` instead of agreeing with the ranged read. -/
theorem C3_rank_formula_counterexample :
    ((global_leaderboard_page
        [⟨1, "alice", 100, 1500, 0, 0⟩, ⟨2, "bob", 100, 1500, 0, 0⟩]
        0 100).get? 1).map LBEntry.rank = some 2
    ∧ countStrictlyGreater
        [⟨1, "alice", 100, 1500, 0, 0⟩, ⟨2, "bob", 100, 1500, 0, 0⟩] 100 + 1
        = 1
    ∧ get_user_leaderboard_data RedisState.empty 2
        = .error .attributeError := by decide

/-- Claim C3 (amended): for every member of a leaderboard page the reported
rank is its 1-based position `skip + i + 1` in the full descending order;
when the scope's scores are strictly descending (no ties) that position
equals `count(strictly greater) + 1`; and the separate per-member rank
query does not agree — it raises `AttributeError` (`CacheService` has no
`get_sorted_set_rank`). -/
theorem C3_rank_equals_position (users : List UserRec) (st : RedisState)
    (skip limit i : Nat) (hsorted : ScoresStrictDesc users)
    (hi : i < (global_leaderboard_page users skip limit).length) :
    ((global_leaderboard_page users skip limit).get ⟨i, hi⟩).rank
        = skip + i + 1
    ∧ ((global_leaderboard_page users skip limit).get ⟨i, hi⟩).rank
        = countStrictlyGreater users
            (((global_leaderboard_page users skip limit).get
              ⟨i, hi⟩).total_score) + 1
    ∧ get_user_leaderboard_data st
        (((global_leaderboard_page users skip limit).get ⟨i, hi⟩).user_id)
        = .error .attributeError := by
  have hisu : skip + i < users.length := by
    have h1 : (global_leaderboard_page users skip limit).length
        = ((users.drop skip).take limit).length := by
      rw [global_leaderboard_page, List.length_map, List.enum_length]
    rw [h1, List.length_take, List.length_drop] at hi
    omega
  rw [page_get users skip limit i hi hisu]
  refine ⟨?_, ?_, get_user_leaderboard_data_raises st _⟩
  · show skip + 1 + i = skip + i + 1
    omega
  · show skip + 1 + i = countStrictlyGreater users
      ((users.get ⟨skip + i, hisu⟩).total_score) + 1
    rw [countStrictlyGreater_of_strictDesc users hsorted (skip + i) hisu]
    omega

/-- Claim C3 witness: the amended rank statement evaluated on the concrete
two-member scope with distinct scores 200 and 100, at page index 1. -/
theorem C3_rank_witness :
    ((global_leaderboard_page
        [⟨1, "alice", 200, 1500, 0, 0⟩, ⟨2, "bob", 100, 1500, 0, 0⟩]
        0 100).get ⟨1, by decide⟩).rank = 0 + 1 + 1
    ∧ ((global_leaderboard_page
        [⟨1, "alice", 200, 1500, 0, 0⟩, ⟨2, "bob", 100, 1500, 0, 0⟩]
        0 100).get ⟨1, by decide⟩).rank
        = countStrictlyGreater
            [⟨1, "alice", 200, 1500, 0, 0⟩, ⟨2, "bob", 100, 1500, 0, 0⟩]
            (((global_leaderboard_page
              [⟨1, "alice", 200, 1500, 0, 0⟩, ⟨2, "bob", 100, 1500, 0, 0⟩]
              0 100).get ⟨1, by decide⟩).total_score) + 1
    ∧ get_user_leaderboard_data RedisState.empty
        (((global_leaderboard_page
          [⟨1, "alice", 200, 1500, 0, 0⟩, ⟨2, "bob", 100, 1500, 0, 0⟩]
          0 100).get ⟨1, by decide⟩).user_id)
        = .error .attributeError :=
  C3_rank_equals_position
    [⟨1, "alice", 200, 1500, 0, 0⟩, ⟨2, "bob", 100, 1500, 0, 0⟩]
    RedisState.empty 0 100 1 (by decide) (by decide)

/-- Claim C4: the spec says every cached view of an affected scope is
invalidated after a committed score delta. The code violates this:
`update_leaderboard` (leaderboard.py 153–187) aborts with `TypeError`
before reaching invalidation, and its invalidation step (lines 169–172)
deletes only the literal key `"global_leaderboard:*"` — redis `DEL` does
no pattern expansion — so a cached view at `"global_leaderboard:0:100"`
survives and a subsequent read serves it stale. -/
theorem C4_cached_views_survive_update :
    update_leaderboard_lb ConnectionManager.empty
      ⟨[("global_leaderboard:0:100", .vpage [⟨7, "alice", 10, 1, 1500, 1, 1⟩])],
       []⟩ 1 100 none = .error .typeError
    ∧ CacheService.get (invalidate_cached_leaderboards
        ⟨[("global_leaderboard:0:100", .vpage [⟨7, "alice", 10, 1, 1500, 1, 1⟩])],
         []⟩ none) "global_leaderboard:0:100"
        = some (.vpage [⟨7, "alice", 10, 1, 1500, 1, 1⟩])
    ∧ (get_global_leaderboard [] (invalidate_cached_leaderboards
        ⟨[("global_leaderboard:0:100", .vpage [⟨7, "alice", 10, 1, 1500, 1, 1⟩])],
         []⟩ none) 0 100).1
        = .vpage [⟨7, "alice", 10, 1, 1500, 1, 1⟩] := by decide

/-- Claim C5: after a connection's disconnect is observed, the connection
belongs to no channel's derived subscriber set and receives zero further
broadcast deliveries, for every channel (including the all-members
broadcast), however soon the next event is published. Hypotheses state
that the registry's connection sets are genuine sets (no duplicates, each
websocket owned by one member), which `connect` guarantees. -/
theorem C5_no_delivery_after_disconnect (m m' : ConnectionManager)
    (ws uid : Nat) (ch : Option String)
    (hkeys : (m.active_connections.map Prod.fst).Nodup)
    (hnd : m.SetsNodup) (hown : m.Owns uid ws)
    (hdis : m.disconnect ws uid = .ok m') :
    ws ∉ m'.broadcast ch := by
  apply not_mem_broadcast_of_not_in_connections
  intro p hp
  rcases disconnect_result m m' ws uid hdis with ⟨conns, hfind, hwm, hcase⟩
  have hcnd : conns.Nodup := hnd _ (alistFind_mem hfind)
  rcases hcase with ⟨hner, rfl⟩ | ⟨hemp, rfl⟩
  · rcases alistSet_entries_of_keys_nodup hkeys hp with rfl | ⟨hpm, hpk⟩
    · exact not_mem_erase_self_of_nodup hcnd ws
    · exact fun hws => hpk (hown _ hpm hws)
  · obtain ⟨hpm, hpk⟩ := alistDel_entries_of_keys_nodup hkeys hp
    exact fun hws => hpk (hown _ hpm hws)

/-- Claim C5 witness: member 1 held websockets 10 and 11 subscribed to
`"leaderboard"`; after websocket 10 disconnects, a broadcast on that
channel no longer reaches it. -/
theorem C5_witness :
    (10 : Nat) ∉ (ConnectionManager.mk [(1, [11])] [(1, ["leaderboard"])]
      ).broadcast (some "leaderboard") :=
  C5_no_delivery_after_disconnect
    ⟨[(1, [10, 11])], [(1, ["leaderboard"])]⟩
    ⟨[(1, [11])], [(1, ["leaderboard"])]⟩
    10 1 (some "leaderboard") (by decide) (by decide) (by decide) (by decide)

/-- Claim C6 counterexample: two concurrent `get_puzzle_stats` callers that
both miss the cache (schedule: both read, then both recompute) perform two
database recomputations, not exactly one; both finish. -/
theorem C6_single_flight_counterexample :
    (runRace ⟨[], [⟨1, "logic", 100, 0, 0, .str "x"⟩], []⟩ 1 (initRace 2)
        [0, 1, 0, 1]).computeCount = 2
    ∧ ¬(runRace ⟨[], [⟨1, "logic", 100, 0, 0, .str "x"⟩], []⟩ 1 (initRace 2)
        [0, 1, 0, 1]).computeCount = 1
    ∧ (runRace ⟨[], [⟨1, "logic", 100, 0, 0, .str "x"⟩], []⟩ 1 (initRace 2)
        [0, 1, 0, 1]).callers
        = [.done (.ok ⟨0, 0, 0, none, 0⟩),
           .done (.ok ⟨0, 0, 0, none, 0⟩)] := by decide

/-- Claim C6 (amended): there is no single-flight collapsing — with `n`
concurrent callers missing the key, up to `n` recomputations can occur
(and do, per the counterexample) — but every caller that finishes observes
the same payload, the deterministic recomputation result, and the number
of recomputations never exceeds the number of callers. -/
theorem C6_each_miss_may_recompute (db : DbState) (pid : Nat)
    (v : PuzzleStats) (n : Nat) (sched : List Nat) (i : Nat)
    (r : Except PyErr PuzzleStats)
    (hv : computePuzzleStats db pid = .ok v)
    (hr : (runRace db pid (initRace n) sched).callers.get? i
        = some (.done r)) :
    r = .ok v
    ∧ (runRace db pid (initRace n) sched).computeCount ≤ n := by
  have h := runRace_preserves db pid v n hv (initRace n)
    (initRace_ok v n) sched
  obtain ⟨_, _, hdone, hcount⟩ := h
  refine ⟨hdone _ (List.get?_mem hr) r rfl, ?_⟩
  omega

/-- Claim C6 witness: the amended statement evaluated on the concrete
two-caller race of the counterexample, for the first caller. -/
theorem C6_witness :
    (Except.ok (⟨0, 0, 0, none, 0⟩ : PuzzleStats)
        : Except PyErr PuzzleStats) = .ok ⟨0, 0, 0, none, 0⟩
    ∧ (runRace ⟨[], [⟨1, "logic", 100, 0, 0, .str "x"⟩], []⟩ 1 (initRace 2)
        [0, 1, 0, 1]).computeCount ≤ 2 :=
  C6_each_miss_may_recompute ⟨[], [⟨1, "logic", 100, 0, 0, .str "x"⟩], []⟩
    1 ⟨0, 0, 0, none, 0⟩ 2 [0, 1, 0, 1] 0 (.ok ⟨0, 0, 0, none, 0⟩)
    (by decide) (by decide)

/-- Claim C7 counterexample: websocket 10 of member 1 connects subscribing
channel `"a"`, websocket 11 of the same member connects subscribing
`"b"`; a broadcast on `"a"` then reaches both 10 and 11 (and so does a
broadcast on `"b"`), so subscribing did not affect only the targeted
connection — the two connections have no independent subscription sets. -/
theorem C7_counterexample :
    (do
      let m1 ← ConnectionManager.empty.connect 10 1 (some "a")
      m1.connect 11 1 (some "b")
      : Except PyErr ConnectionManager).map
      (fun m => (m.broadcast (some "a"), m.broadcast (some "b")))
      = .ok ([10, 11], [10, 11]) := by decide

/-- Claim C7 (amended): channel subscriptions are held per member identity,
not per connection — `user_channels` is keyed by member id — so any two
connections owned by the same member receive exactly the same channel
broadcasts. -/
theorem C7_per_identity_subscriptions (m : ConnectionManager)
    (ch : Option String) (uid ws1 ws2 : Nat)
    (hown1 : m.Owns uid ws1) (hown2 : m.Owns uid ws2)
    (h1 : ws1 ∈ m.send_personal_message uid)
    (h2 : ws2 ∈ m.send_personal_message uid) :
    (ws1 ∈ m.broadcast ch ↔ ws2 ∈ m.broadcast ch) := by
  have key : ∀ w, w ∈ m.send_personal_message uid → m.Owns uid w →
      (w ∈ m.broadcast ch ↔ ∃ q ∈ m.user_channels,
        ConnectionManager.channelMatches ch q.2 = true ∧ q.1 = uid) := by
    intro w hw hown
    rw [mem_broadcast_iff]
    constructor
    · rintro ⟨q, hq, hcm, hsend⟩
      rcases (mem_send_personal_iff m q.1 w).mp hsend with
        ⟨conns, hfind, hwc⟩
      exact ⟨q, hq, hcm, hown _ (alistFind_mem hfind) hwc⟩
    · rintro ⟨q, hq, hcm, hquid⟩
      exact ⟨q, hq, hcm, by rw [hquid]; exact hw⟩
  rw [key ws1 h1 hown1, key ws2 h2 hown2]

/-- Claim C7 witness: in the registry produced by the counterexample's two
connects, websockets 10 and 11 of member 1 receive broadcasts on channel
`"a"` alike. -/
theorem C7_witness :
    ((10 : Nat) ∈ (ConnectionManager.mk [(1, [10, 11])] [(1, ["a", "b"])]
        ).broadcast (some "a")
      ↔ (11 : Nat) ∈ (ConnectionManager.mk [(1, [10, 11])] [(1, ["a", "b"])]
        ).broadcast (some "a")) :=
  C7_per_identity_subscriptions ⟨[(1, [10, 11])], [(1, ["a", "b"])]⟩
    (some "a") 1 10 11 (by decide) (by decide) (by decide) (by decide)

/-- Claim C8: the spec says a rank query for an unranked member returns the
sentinel `rank: None, score: 0` rather than a fault. The code violates
this: `get_user_leaderboard_data` calls `cache.get_sorted_set_rank`, an
attribute `CacheService` does not define, so every rank query — here
member 1 with no recorded score — raises `AttributeError` and the sentinel
is dead code. -/
theorem C8_unranked_rank_query_raises :
    get_user_leaderboard_data RedisState.empty 1
      = .error .attributeError := by decide

/-- Claim C9: the registry invariant — the key lists of
`active_connections` and `user_channels` coincide and every registered
member holds a non-empty connection set — is preserved by every successful
`connect` and every successful `disconnect`. -/
theorem C9_registry_invariant (m : ConnectionManager) (ws uid : Nat)
    (ch : Option String) (hinv : m.RegistryInv) :
    (∀ m', m.connect ws uid ch = .ok m' → m'.RegistryInv)
    ∧ (∀ m', m.disconnect ws uid = .ok m' → m'.RegistryInv) :=
  ⟨fun m' h => connect_preserves_inv m m' ws uid ch hinv h,
   fun m' h => disconnect_preserves_inv m m' ws uid hinv h⟩

/-- Claim C9 witness: the invariant holds of the registries produced by a
concrete connect (adding websocket 20 with channel `"x"`) and a concrete
disconnect (removing the last connection of member 1). -/
theorem C9_witness :
    (ConnectionManager.mk [(1, [10, 20])] [(1, ["x"])]).RegistryInv
    ∧ (ConnectionManager.mk ([] : List (Nat × List Nat))
        ([] : List (Nat × List String))).RegistryInv :=
  ⟨(C9_registry_invariant ⟨[(1, [10])], [(1, [])]⟩ 20 1 (some "x")
      (by decide)).1 _ (by decide),
   (C9_registry_invariant ⟨[(1, [10])], [(1, [])]⟩ 10 1 (some "x")
      (by decide)).2 _ (by decide)⟩

/-- Claim C10: a broadcast with no channel reaches every connection of
every currently connected member, whatever their subscriptions (under the
registry invariant relating the two dicts), and a personal message to a
member with no registered connections delivers to nobody and raises
nothing — a silent no-op. -/
theorem C10_broadcast_all_and_silent_noop (m : ConnectionManager)
    (uid w : Nat) (hinv : m.RegistryInv) :
    (uid ∈ m.connectedMembers → w ∈ m.send_personal_message uid →
      w ∈ m.broadcast none)
    ∧ (uid ∉ m.connectedMembers → m.send_personal_message uid = []) := by
  obtain ⟨hkeys, _⟩ := hinv
  constructor
  · intro hmem hw
    have h1 : uid ∈ m.user_channels.map Prod.fst := by
      rw [← hkeys]
      exact hmem
    rcases List.mem_map.mp h1 with ⟨q, hq, hquid⟩
    refine (mem_broadcast_iff m none w).mpr ⟨q, hq, rfl, ?_⟩
    rw [hquid]
    exact hw
  · intro hmem
    rw [ConnectionManager.send_personal_message,
      alistFind_eq_none_of_not_mem_keys hmem]

/-- Claim C10 witness: websocket 10 of connected member 1 (subscribed to
nothing) receives the channel-less broadcast, and a personal message to
the unconnected member 2 delivers to nobody. -/
theorem C10_witness :
    ((10 : Nat) ∈ (ConnectionManager.mk [(1, [10])] [(1, [])]).broadcast
        none)
    ∧ (ConnectionManager.mk [(1, [10])] [(1, [])]).send_personal_message 2
        = [] :=
  ⟨(C10_broadcast_all_and_silent_noop ⟨[(1, [10])], [(1, [])]⟩ 1 10
      (by decide)).1 (by decide) (by decide),
   (C10_broadcast_all_and_silent_noop ⟨[(1, [10])], [(1, [])]⟩ 2 10
      (by decide)).2 (by decide)⟩

end FetuOptima
